import Mathlib

/-!
Verification of the demo-database-input CRUD service.

The embedding models, from the source under src/:
- src/backend/models.py  : pydantic payload validation (ProjectCreate, ProjectUpdate)
- src/backend/routes.py  : the six API handlers over an abstract SQLite state
- src/database/db_utils.py : fetch_one / fetch_all / execute_query as operations
  on a list of rows

Strings are lists of characters (Str); dates and timestamps are naturals
ordered chronologically (ISO-8601 text order in SQLite coincides with
chronological order, so Nat with its order is a faithful abstraction).
SQLite LIKE is modelled with its default ASCII-case-insensitive semantics
and percent/underscore wildcards.
-/

abbrev Str := List Char

/-- Convert a Lean string literal to the character-list representation. -/
def chars (s : String) : Str := s.data

/-- ASCII lower-casing of one character, as SQLite folds case for LIKE and
as Python str.lower does on ASCII input (routes.py line 121 order.lower). -/
def lowerChar (c : Char) : Char :=
  if c.val ≥ 65 ∧ c.val ≤ 90 then Char.ofNat (c.val.toNat + 32) else c

/-- ASCII lower-casing of a string. -/
def lowerStr (s : Str) : Str := s.map lowerChar

/-- Code-point lexicographic strict order on strings: the order used both by
Python sorted on str and by SQLite ORDER BY on text (BINARY collation). -/
def strLt : Str → Str → Bool
  | [], [] => false
  | [], _ :: _ => true
  | _ :: _, [] => false
  | a :: as, b :: bs => a < b || (a = b && strLt as bs)

/-- Three-way comparison derived from strLt, used for ORDER BY on text. -/
def cmpStr (a b : Str) : Ordering :=
  if strLt a b then .lt else if a = b then .eq else .gt

/-- All suffixes of a string, longest first, ending with the empty one. -/
def suffixes : Str → List Str
  | [] => [[]]
  | c :: s => (c :: s) :: suffixes s

/-- SQLite LIKE matching (default pragma case_sensitive_like = off):
percent matches any character sequence (tried here as every suffix of the
remaining text), underscore matches any single character, and any other
pattern character compares ASCII-case-insensitively. -/
def likeMatch : Str → Str → Bool
  | [], s => s.isEmpty
  | '%' :: ps, s => (suffixes s).any (fun s2 => likeMatch ps s2)
  | '_' :: ps, s =>
    match s with
    | [] => false
    | _ :: s2 => likeMatch ps s2
  | p :: ps, s =>
    match s with
    | [] => false
    | c :: s2 => lowerChar p = lowerChar c && likeMatch ps s2

/-- b begins with a, character for character (exact case). -/
def startsWith : Str → Str → Bool
  | [], _ => true
  | _ :: _, [] => false
  | a :: as, b :: bs => a = b && startsWith as bs

/-- x occurs in s as a contiguous case-sensitive substring. -/
def substrOf (x : Str) : Str → Bool
  | [] => x.isEmpty
  | s@(_ :: rest) => startsWith x s || substrOf x rest

/-- Python str.split on a comma (models tools_used.split in routes.py
line 334): splits at every comma, keeping empty pieces. -/
def splitComma : Str → List Str
  | [] => [[]]
  | c :: cs =>
    if c = ',' then [] :: splitComma cs
    else
      match splitComma cs with
      | [] => [[c]]
      | t :: ts => (c :: t) :: ts

/-- Python str.strip (routes.py line 335): drop whitespace from both ends. -/
def pyStrip (s : Str) : Str :=
  ((s.dropWhile Char.isWhitespace).reverse.dropWhile Char.isWhitespace).reverse

/-- Insert a string into a strictly sorted list, keeping it sorted and
duplicate-free.  Folding this over a list of values models both
SELECT DISTINCT ... ORDER BY and the Python set-then-sorted idiom of
get_filter_options. -/
def insertStr (x : Str) : List Str → List Str
  | [] => [x]
  | y :: ys =>
    if strLt x y then x :: y :: ys
    else if x = y then y :: ys
    else y :: insertStr x ys

/-- Sorted deduplication of a list of strings. -/
def distinctSorted (l : List Str) : List Str := l.foldr insertStr []

/-! ## Data model

One stored row of the work_projects table (schema per models.py
ProjectResponse: project_name and description are NOT NULL, the other
attribute columns are nullable; id, created_at, updated_at are set by the
database). -/

structure Row where
  id : Nat
  project_name : Str
  description : Str
  industry : Option Str
  start_date : Option Nat
  end_date : Option Nat
  tools_used : Option Str
  role : Option Str
  client_organization : Option Str
  client_description : Option Str
  created_at : Nat
  updated_at : Nat
deriving DecidableEq, Repr

/-- The persistent state: the rows of the single work_projects table. -/
structure DB where
  rows : List Row
deriving DecidableEq, Repr

/-- fetch_one of SELECT * WHERE id = ? : the first stored row with that id. -/
def findRow (rows : List Row) (i : Nat) : Option Row :=
  rows.find? (fun r => r.id = i)

/-- The rowid SQLite assigns to a fresh INSERT: one more than the largest
existing rowid (db_utils.execute_query returns cursor.lastrowid). -/
def maxId (rows : List Row) : Nat := rows.foldr (fun r m => max r.id m) 0

/-! ## Request payloads and pydantic validation (models.py) -/

/-- A create body field: none models both a missing key and an explicit
JSON null (pydantic defaults the optional fields to None either way, and
rejects null for the two required str fields just as it rejects absence). -/
structure CreatePayload where
  project_name : Option Str
  description : Option Str
  industry : Option Str
  start_date : Option Nat
  end_date : Option Nat
  tools_used : Option Str
  role : Option Str
  client_organization : Option Str
  client_description : Option Str
deriving DecidableEq, Repr

/-- One field of a partial-update body: pydantic distinguishes a key that
is absent (unset) from one set to null and from one set to a value. -/
inductive FieldUpd (α : Type) where
  | unset
  | setNull
  | setVal (a : α)
deriving DecidableEq, Repr

/-- PUT body (models.py ProjectUpdate): every field optional. -/
structure UpdatePayload where
  project_name : FieldUpd Str
  description : FieldUpd Str
  industry : FieldUpd Str
  start_date : FieldUpd Nat
  end_date : FieldUpd Nat
  tools_used : FieldUpd Str
  role : FieldUpd Str
  client_organization : FieldUpd Str
  client_description : FieldUpd Str
deriving DecidableEq, Repr

/-- The all-unset PUT body, whose model_dump(exclude_unset=True) is empty. -/
def emptyUpdate : UpdatePayload :=
  ⟨.unset, .unset, .unset, .unset, .unset, .unset, .unset, .unset, .unset⟩

/-- Length check for a required text field (Field min_length/max_length). -/
def reqStrOk (v : Option Str) (maxLen : Nat) : Bool :=
  match v with
  | none => false
  | some s => 1 ≤ s.length && s.length ≤ maxLen

/-- Length check for an optional text field: None passes, a value is
bounds-checked. -/
def optStrOk (v : Option Str) (maxLen : Nat) : Bool :=
  match v with
  | none => true
  | some s => s.length ≤ maxLen

/-- ProjectCreate validation (models.py lines 13 to 30): the names of the
failing fields, in field-declaration order, as pydantic collects them.
The end_date validator fires exactly when both dates are present in the
payload and end_date is before start_date. -/
def validateCreate (p : CreatePayload) : List Str :=
  (if reqStrOk p.project_name 200 then [] else [chars "project_name"]) ++
  (if reqStrOk p.description 2000 then [] else [chars "description"]) ++
  (if optStrOk p.industry 100 then [] else [chars "industry"]) ++
  (match p.end_date, p.start_date with
   | some e, some s => if e < s then [chars "end_date"] else []
   | _, _ => []) ++
  (if optStrOk p.tools_used 500 then [] else [chars "tools_used"]) ++
  (if optStrOk p.role 100 then [] else [chars "role"]) ++
  (if optStrOk p.client_organization 200 then [] else [chars "client_organization"]) ++
  (if optStrOk p.client_description 1000 then [] else [chars "client_description"])

/-- Bounds check for one updated text field: unset and explicit null pass,
a supplied value is checked against the Field bounds. -/
def updStrOk (v : FieldUpd Str) (minLen maxLen : Nat) : Bool :=
  match v with
  | .unset => true
  | .setNull => true
  | .setVal s => minLen ≤ s.length && s.length ≤ maxLen

/-- ProjectUpdate validation (models.py lines 54 to 74).  The end_date
validator reads start_date from info.data, which holds it only when the
same payload supplies it as a non-null value, so the cross-field date
check fires only when both dates are set together in this payload. -/
def validateUpdate (p : UpdatePayload) : List Str :=
  (if updStrOk p.project_name 1 200 then [] else [chars "project_name"]) ++
  (if updStrOk p.description 1 2000 then [] else [chars "description"]) ++
  (if updStrOk p.industry 0 100 then [] else [chars "industry"]) ++
  (match p.end_date, p.start_date with
   | .setVal e, .setVal s => if e < s then [chars "end_date"] else []
   | _, _ => []) ++
  (if updStrOk p.tools_used 0 500 then [] else [chars "tools_used"]) ++
  (if updStrOk p.role 0 100 then [] else [chars "role"]) ++
  (if updStrOk p.client_organization 0 200 then [] else [chars "client_organization"]) ++
  (if updStrOk p.client_description 0 1000 then [] else [chars "client_description"])

/-! ## List query parameters and SQL evaluation (routes.py list_projects) -/

/-- Query string of GET /api/projects.  sort_by and order model the raw
parameter: none is an absent parameter, for which FastAPI substitutes the
declared defaults created_at and desc. -/
structure ListQuery where
  industry : Option Str
  client : Option Str
  tools : Option Str
  start_after : Option Nat
  end_before : Option Nat
  sort_by : Option Str
  order : Option Str
deriving DecidableEq, Repr

/-- The query with no parameter supplied. -/
def noQuery : ListQuery := ⟨none, none, none, none, none, none, none⟩

/-- The sort_by allow-list of routes.py lines 110 to 113. -/
def validSortFields : List Str :=
  [chars "id", chars "project_name", chars "industry", chars "start_date",
   chars "end_date", chars "client_organization", chars "created_at",
   chars "updated_at"]

/-- Whether one row satisfies the WHERE clause assembled in routes.py
lines 125 to 146.  A falsy (absent or empty) filter value adds no
condition; each added condition compares a column against the bound value
with SQL semantics, so a NULL column never satisfies it. -/
def rowMatches (q : ListQuery) (r : Row) : Bool :=
  (match q.industry with
   | none => true
   | some f => f.isEmpty ||
       (match r.industry with | some v => v = f | none => false)) &&
  (match q.client with
   | none => true
   | some f => f.isEmpty ||
       (match r.client_organization with | some v => v = f | none => false)) &&
  (match q.tools with
   | none => true
   | some f => f.isEmpty ||
       (match r.tools_used with
        | some t => likeMatch ('%' :: f ++ ['%']) t
        | none => false)) &&
  (match q.start_after with
   | none => true
   | some d => match r.start_date with | some s => d ≤ s | none => false) &&
  (match q.end_before with
   | none => true
   | some d => match r.end_date with | some e => e ≤ d | none => false)

/-- Compare two nullable column values: SQLite orders NULL before any
value in ascending order. -/
def cmpOpt (cmp : α → α → Ordering) : Option α → Option α → Ordering
  | none, none => .eq
  | none, some _ => .lt
  | some _, none => .gt
  | some a, some b => cmp a b

/-- ORDER BY comparison for one allow-listed column. -/
def cmpCol (col : Str) (a b : Row) : Ordering :=
  if col = chars "id" then compare a.id b.id
  else if col = chars "project_name" then cmpStr a.project_name b.project_name
  else if col = chars "industry" then cmpOpt cmpStr a.industry b.industry
  else if col = chars "start_date" then cmpOpt compare a.start_date b.start_date
  else if col = chars "end_date" then cmpOpt compare a.end_date b.end_date
  else if col = chars "client_organization" then
    cmpOpt cmpStr a.client_organization b.client_organization
  else if col = chars "created_at" then compare a.created_at b.created_at
  else compare a.updated_at b.updated_at

/-- Row order used by ORDER BY col ASC or DESC (descending reverses the
comparison, which also places NULLs last, as SQLite does). -/
def rowLe (col : Str) (desc : Bool) (a b : Row) : Bool :=
  match (if desc then cmpCol col b a else cmpCol col a b) with
  | .gt => false
  | _ => true

/-- Insertion into a list sorted by a boolean comparison. -/
def insertBy (le : Row → Row → Bool) (x : Row) : List Row → List Row
  | [] => [x]
  | y :: ys => if le x y then x :: y :: ys else y :: insertBy le x ys

/-- Sorting of the result set by a boolean comparison. -/
def sortBy (le : Row → Row → Bool) : List Row → List Row
  | [] => []
  | x :: xs => insertBy le x (sortBy le xs)

/-! ## Requests and responses -/

inductive Request where
  | create (p : CreatePayload)
  | listProjects (q : ListQuery)
  | getProject (id : Nat)
  | updateProject (id : Nat) (p : UpdatePayload)
  | deleteProject (id : Nat)
  | filterOptions
deriving DecidableEq, Repr

inductive Response where
  | okProject (r : Row)
  | okList (rs : List Row)
  | okMsg (m : Str)
  | okOptions (industries clients tools : List Str)
  | createdProject (r : Row)
  | validationErr (fields : List Str)
  | httpErr (code : Nat) (detail : Str)
deriving DecidableEq, Repr

/-- HTTP status code of a response (FastAPI: 201 for create, 422 for a
pydantic validation failure, 200 otherwise on success). -/
def Response.status : Response → Nat
  | .okProject _ => 200
  | .okList _ => 200
  | .okMsg _ => 200
  | .okOptions _ _ _ => 200
  | .createdProject _ => 201
  | .validationErr _ => 422
  | .httpErr c _ => c

/-- Decimal rendering of a number, for the detail strings that interpolate
the project id. -/
def natStr (n : Nat) : Str := (Nat.repr n).data

/-! ## The handlers (routes.py), over an abstract state and a request
timestamp now.  created_at, updated_at and the refresh of updated_at on
every UPDATE are modelled from the spec: schema.sql is not under src/, and
the spec (sections 3 and 6) states that created_at is set once at insert
and that a trigger (or equivalent) stamps updated_at on every row
modification; both timestamps come from the database clock, modelled by
the strictly advancing parameter now. -/

/-- The row written by the INSERT of create_project: the payload columns
plus the assigned id and the creation timestamps. -/
def newRowOf (now : Nat) (p : CreatePayload) (newId : Nat) : Row :=
  { id := newId
    project_name := p.project_name.getD []
    description := p.description.getD []
    industry := p.industry
    start_date := p.start_date
    end_date := p.end_date
    tools_used := p.tools_used
    role := p.role
    client_organization := p.client_organization
    client_description := p.client_description
    created_at := now
    updated_at := now }

/-- POST /api/projects (routes.py create_project): validate, INSERT,
re-read by lastrowid; a failed re-read is a 500 after the insert. -/
def createProject (now : Nat) (db : DB) (p : CreatePayload) : DB × Response :=
  match validateCreate p with
  | _ :: _ => (db, .validationErr (validateCreate p))
  | [] =>
    let newId := maxId db.rows + 1
    let newRow : Row := newRowOf now p newId
    let db' : DB := ⟨db.rows ++ [newRow]⟩
    match findRow db'.rows newId with
    | none => (db', .httpErr 500 (chars "Failed to retrieve created project"))
    | some created => (db', .createdProject created)

/-- GET /api/projects (routes.py list_projects): allow-list check on
sort_by, case-insensitive check on order, then the filtered and sorted
SELECT.  Absent sort_by and order take the declared defaults. -/
def listProjects (db : DB) (q : ListQuery) : DB × Response :=
  let sb := q.sort_by.getD (chars "created_at")
  let ord := q.order.getD (chars "desc")
  if sb ∉ validSortFields then
    (db, .httpErr 400 (chars "Invalid sort_by field. Must be one of: id, project_name, industry, start_date, end_date, client_organization, created_at, updated_at"))
  else if lowerStr ord ≠ chars "asc" ∧ lowerStr ord ≠ chars "desc" then
    (db, .httpErr 400 (chars "Order must be \x27asc\x27 or \x27desc\x27"))
  else
    let desc := lowerStr ord = chars "desc"
    (db, .okList (sortBy (rowLe sb desc) (db.rows.filter (rowMatches q))))

/-- GET /api/projects/id (routes.py get_project). -/
def getProject (db : DB) (i : Nat) : DB × Response :=
  match findRow db.rows i with
  | none => (db, .httpErr 404 (chars "Project " ++ natStr i ++ chars " not found"))
  | some r => (db, .okProject r)

/-- Whether the PUT body supplies at least one field, i.e. whether
model_dump(exclude_unset=True) is non-empty (routes.py line 229). -/
def hasUpdates (p : UpdatePayload) : Bool :=
  p.project_name ≠ .unset || p.description ≠ .unset || p.industry ≠ .unset ||
  p.start_date ≠ .unset || p.end_date ≠ .unset || p.tools_used ≠ .unset ||
  p.role ≠ .unset || p.client_organization ≠ .unset ||
  p.client_description ≠ .unset

/-- New value of a nullable column under one update item. -/
def updOpt (u : FieldUpd α) (old : Option α) : Option α :=
  match u with
  | .unset => old
  | .setNull => none
  | .setVal v => some v

/-- Apply the assembled UPDATE ... SET statement to one row.  Setting a
NOT NULL column (project_name, description) to null makes the statement
fail, which the route surfaces as a 500 with no row changed; the
updated_at stamp models the trigger described by the spec. -/
def applyUpdate (now : Nat) (p : UpdatePayload) (r : Row) : Option Row :=
  match p.project_name, p.description with
  | .setNull, _ => none
  | _, .setNull => none
  | pn, d =>
    some { r with
      project_name := match pn with | .setVal v => v | _ => r.project_name
      description := match d with | .setVal v => v | _ => r.description
      industry := updOpt p.industry r.industry
      start_date := updOpt p.start_date r.start_date
      end_date := updOpt p.end_date r.end_date
      tools_used := updOpt p.tools_used r.tools_used
      role := updOpt p.role r.role
      client_organization := updOpt p.client_organization r.client_organization
      client_description := updOpt p.client_description r.client_description
      updated_at := now }

/-- PUT /api/projects/id (routes.py update_project).  FastAPI validates
the body before the handler runs, so a 422 precedes the existence check;
the handler then 404s on a missing id, no-ops on an empty payload, and
otherwise updates only the supplied columns and re-reads. -/
def updateProject (now : Nat) (db : DB) (i : Nat) (p : UpdatePayload) :
    DB × Response :=
  match validateUpdate p with
  | _ :: _ => (db, .validationErr (validateUpdate p))
  | [] =>
    match findRow db.rows i with
    | none => (db, .httpErr 404 (chars "Project " ++ natStr i ++ chars " not found"))
    | some existing =>
      if ¬ hasUpdates p then (db, .okProject existing)
      else
        match applyUpdate now p existing with
        | none => (db, .httpErr 500 (chars "Database error"))
        | some _ =>
          let rows' := db.rows.map (fun r =>
            if r.id = i then (applyUpdate now p r).getD r else r)
          match findRow rows' i with
          | none => (⟨rows'⟩, .httpErr 500 (chars "Database error"))
          | some updated => (⟨rows'⟩, .okProject updated)

/-- DELETE /api/projects/id (routes.py delete_project). -/
def deleteProject (db : DB) (i : Nat) : DB × Response :=
  match findRow db.rows i with
  | none => (db, .httpErr 404 (chars "Project " ++ natStr i ++ chars " not found"))
  | some _ =>
    (⟨db.rows.filter (fun r => r.id ≠ i)⟩,
     .okMsg (chars "Project " ++ natStr i ++ chars " deleted successfully"))

/-- Industry values scanned by get_filter_options: SELECT DISTINCT
industry WHERE industry IS NOT NULL AND industry != '' ORDER BY industry. -/
def industriesOf (rows : List Row) : List Str :=
  distinctSorted ((rows.filterMap Row.industry).filter (fun v => ¬ v.isEmpty))

/-- Client values scanned by get_filter_options, same shape. -/
def clientsOf (rows : List Row) : List Str :=
  distinctSorted
    ((rows.filterMap Row.client_organization).filter (fun v => ¬ v.isEmpty))

/-- Tool tokens of one tools_used value: split on comma, strip, drop
empties (routes.py lines 331 to 337). -/
def tokensOf (t : Str) : List Str :=
  ((splitComma t).map pyStrip).filter (fun tok => ¬ tok.isEmpty)

/-- Tools vocabulary of get_filter_options: every token of every distinct
non-empty tools_used value, deduplicated into a sorted list (the Python
set accumulation followed by sorted). -/
def toolsOf (rows : List Row) : List Str :=
  distinctSorted
    ((((rows.filterMap Row.tools_used).filter (fun v => ¬ v.isEmpty)).dedup).foldr
      (fun t acc => tokensOf t ++ acc) [])

/-- GET /api/projects/filters/options (routes.py get_filter_options). -/
def filterOptions (db : DB) : DB × Response :=
  (db, .okOptions (industriesOf db.rows) (clientsOf db.rows) (toolsOf db.rows))

/-- The dispatcher: one API request against the stored state, at database
timestamp now. -/
def handle (now : Nat) (db : DB) : Request → DB × Response
  | .create p => createProject now db p
  | .listProjects q => listProjects db q
  | .getProject i => getProject db i
  | .updateProject i p => updateProject now db i p
  | .deleteProject i => deleteProject db i
  | .filterOptions => filterOptions db

/-! ## Supporting lemmas -/

theorem maxId_ge (rows : List Row) (r : Row) (hr : r ∈ rows) :
    r.id ≤ maxId rows := by
  induction rows with
  | nil => cases hr
  | cons a l ih =>
    rcases List.mem_cons.mp hr with h | h
    · subst h; simp [maxId, Nat.le_max_left]
    · exact Nat.le_trans (ih h) (by simp [maxId, Nat.le_max_right])

theorem findRow_append_fresh (rows : List Row) (nr : Row) (i : Nat)
    (hfresh : ∀ r ∈ rows, r.id ≠ i) (hid : nr.id = i) :
    findRow (rows ++ [nr]) i = some nr := by
  induction rows with
  | nil => simp [findRow, List.find?, hid]
  | cons a l ih =>
    have ha : a.id ≠ i := hfresh a (List.mem_cons_self a l)
    simp only [findRow, List.cons_append, List.find?, decide_eq_false ha,
      List.append_eq] at ih ⊢
    exact ih (fun r hr => hfresh r (List.mem_cons_of_mem a hr))

theorem findRow_map_ite (rows : List Row) (i : Nat) (g : Row → Row)
    (hg : ∀ r, (g r).id = r.id) :
    findRow (rows.map fun r => if r.id = i then g r else r) i
      = Option.map (fun r => if r.id = i then g r else r) (findRow rows i) := by
  induction rows with
  | nil => rfl
  | cons a l ih =>
    by_cases ha : a.id = i
    · simp [findRow, List.find?, ha, hg]
    · simp only [findRow, List.map_cons, List.find?, if_neg ha,
        decide_eq_false ha] at ih ⊢
      exact ih

theorem findRow_filter_ne (rows : List Row) (i : Nat) :
    findRow (rows.filter fun r => !decide (r.id = i)) i = none := by
  rw [findRow, List.find?_eq_none]
  intro r hr
  have := (List.mem_filter.mp hr).2
  simpa using this

theorem mem_insertBy (le : Row → Row → Bool) (x z : Row) (l : List Row) :
    z ∈ insertBy le x l ↔ z = x ∨ z ∈ l := by
  induction l with
  | nil => simp [insertBy]
  | cons y ys ih =>
    by_cases h : le x y
    · simp [insertBy, h]
    · simp [insertBy, h, ih]
      tauto

theorem mem_sortBy (le : Row → Row → Bool) (z : Row) (l : List Row) :
    z ∈ sortBy le l ↔ z ∈ l := by
  induction l with
  | nil => simp [sortBy]
  | cons x xs ih => simp [sortBy, mem_insertBy, ih]

/-! ## Claims -/

/-- Claim C1: on GET /api/projects, a sort_by outside the allow-list, or
an order whose lower-casing is neither asc nor desc, yields HTTP 400 with
the stored state untouched (the check precedes any SQL); absent sort_by
and order behave exactly as created_at and desc. -/
theorem list_invalid_sort_or_order_400 (now : Nat) (db : DB) (q : ListQuery)
    (h : q.sort_by.getD (chars "created_at") ∉ validSortFields ∨
      (lowerStr (q.order.getD (chars "desc")) ≠ chars "asc" ∧
       lowerStr (q.order.getD (chars "desc")) ≠ chars "desc")) :
    (∃ d, handle now db (.listProjects q) = (db, .httpErr 400 d)) ∧
    handle now db (.listProjects { q with sort_by := none }) =
      handle now db (.listProjects { q with sort_by := some (chars "created_at") }) ∧
    handle now db (.listProjects { q with order := none }) =
      handle now db (.listProjects { q with order := some (chars "desc") }) := by
  refine ⟨?_, rfl, rfl⟩
  by_cases hs : q.sort_by.getD (chars "created_at") ∈ validSortFields
  · rcases h with h | h
    · exact absurd hs h
    · exact ⟨chars "Order must be \x27asc\x27 or \x27desc\x27",
        by simp [handle, listProjects, hs, h.1, h.2]⟩
  · exact ⟨chars "Invalid sort_by field. Must be one of: id, project_name, industry, start_date, end_date, client_organization, created_at, updated_at",
      by simp [handle, listProjects, hs]⟩

theorem list_invalid_sort_or_order_400_witness :
    ((noQuery.sort_by.getD (chars "created_at") ∉ validSortFields ∨
      (lowerStr ((some (chars "up")).getD (chars "desc")) ≠ chars "asc" ∧
       lowerStr ((some (chars "up")).getD (chars "desc")) ≠ chars "desc")) ∧
     ∃ d, handle 0 ⟨[]⟩ (.listProjects { noQuery with order := some (chars "up") }) =
        (⟨[]⟩, .httpErr 400 d)) := by
  refine ⟨Or.inr (by decide), ?_⟩
  exact (list_invalid_sort_or_order_400 0 ⟨[]⟩
    { noQuery with order := some (chars "up") } (Or.inr (by decide))).1

/-- Claim C10: an empty-string industry, client, or tools filter parameter
imposes no constraint on GET /api/projects: the outcome is identical to
the one with the parameter absent. -/
theorem empty_filter_imposes_no_constraint (now : Nat) (db : DB) (q : ListQuery) :
    handle now db (.listProjects { q with industry := some [] }) =
      handle now db (.listProjects { q with industry := none }) ∧
    handle now db (.listProjects { q with client := some [] }) =
      handle now db (.listProjects { q with client := none }) ∧
    handle now db (.listProjects { q with tools := some [] }) =
      handle now db (.listProjects { q with tools := none }) :=
  ⟨rfl, rfl, rfl⟩

/-- Claim C8: a PUT whose payload supplies zero fields is a no-op: it
returns HTTP 200 with the existing record and leaves the stored state,
including updated_at, unchanged. -/
theorem empty_update_is_noop (now : Nat) (db : DB) (i : Nat) (r : Row)
    (hr : findRow db.rows i = some r) :
    handle now db (.updateProject i emptyUpdate) = (db, .okProject r) := by
  show updateProject now db i emptyUpdate = _
  unfold updateProject
  rw [show validateUpdate emptyUpdate = [] from rfl, hr]
  rfl

/-- A concrete stored row used by the witnesses. -/
def sampleRow : Row :=
  { id := 1
    project_name := chars "P"
    description := chars "D"
    industry := some (chars "Energy")
    start_date := some 100
    end_date := some 120
    tools_used := some (chars "Python, Django")
    role := none
    client_organization := some (chars "CleanEcon")
    client_description := none
    created_at := 5
    updated_at := 5 }

theorem empty_update_is_noop_witness :
    findRow [sampleRow] 1 = some sampleRow ∧
    handle 9 ⟨[sampleRow]⟩ (.updateProject 1 emptyUpdate) =
      (⟨[sampleRow]⟩, .okProject sampleRow) :=
  ⟨by decide, empty_update_is_noop 9 ⟨[sampleRow]⟩ 1 sampleRow (by decide)⟩

/-- Claim C9: deleting an id with no stored row yields HTTP 404, never
200; after a successful delete, a GET of that id yields HTTP 404. -/
theorem delete_then_get_404 (now now2 : Nat) (db : DB) (i : Nat) :
    (findRow db.rows i = none →
      handle now db (.deleteProject i) =
        (db, .httpErr 404 (chars "Project " ++ natStr i ++ chars " not found"))) ∧
    (∀ r, findRow db.rows i = some r →
      (handle now2 (handle now db (.deleteProject i)).1 (.getProject i)).2 =
        .httpErr 404 (chars "Project " ++ natStr i ++ chars " not found")) := by
  constructor
  · intro h
    simp [handle, deleteProject, h]
  · intro r hr
    simp [handle, deleteProject, hr, getProject, findRow_filter_ne]

theorem delete_then_get_404_witness :
    findRow [sampleRow] 1 = some sampleRow ∧
    (handle 8 (handle 7 ⟨[sampleRow]⟩ (.deleteProject 1)).1 (.getProject 1)).2 =
      .httpErr 404 (chars "Project " ++ natStr 1 ++ chars " not found") :=
  ⟨by decide, (delete_then_get_404 7 8 ⟨[sampleRow]⟩ 1).2 sampleRow (by decide)⟩

/-- The per-row effect of the UPDATE statement issued for payload p. -/
def updRowFn (now : Nat) (p : UpdatePayload) (i : Nat) : Row → Row :=
  fun r => if r.id = i then (applyUpdate now p r).getD r else r

theorem applyUpdate_id (now : Nat) (p : UpdatePayload) (r : Row) :
    ((applyUpdate now p r).getD r).id = r.id := by
  unfold applyUpdate
  cases p.project_name <;> cases p.description <;> rfl

theorem applyUpdate_eq_some (now : Nat) (p : UpdatePayload) (r : Row)
    (hpn : p.project_name ≠ .setNull) (hd : p.description ≠ .setNull) :
    applyUpdate now p r = some ((applyUpdate now p r).getD r) := by
  cases hp : p.project_name <;> cases hq : p.description <;>
    simp_all [applyUpdate]

theorem findRow_map_updRowFn (now : Nat) (p : UpdatePayload) (i : Nat)
    (rows : List Row) :
    findRow (rows.map (updRowFn now p i)) i
      = Option.map (updRowFn now p i) (findRow rows i) :=
  findRow_map_ite rows i (fun r0 => (applyUpdate now p r0).getD r0)
    (fun r0 => applyUpdate_id now p r0)

/-- The successful branch of update_project: a valid non-empty payload on
an existing id rewrites exactly the matching rows and returns the re-read
record. -/
theorem updateProject_success (now : Nat) (db : DB) (i : Nat)
    (p : UpdatePayload) (r : Row) (hv : validateUpdate p = [])
    (hr : findRow db.rows i = some r) (hu : hasUpdates p = true)
    (hpn : p.project_name ≠ .setNull) (hd : p.description ≠ .setNull) :
    updateProject now db i p =
      (⟨db.rows.map (updRowFn now p i)⟩, .okProject (updRowFn now p i r)) := by
  have happ := applyUpdate_eq_some now p r hpn hd
  have hfind : findRow
      (db.rows.map fun r0 =>
        if r0.id = i then (applyUpdate now p r0).getD r0 else r0) i
      = some (if r.id = i then (applyUpdate now p r).getD r else r) := by
    rw [show (fun r0 =>
        if r0.id = i then (applyUpdate now p r0).getD r0 else r0)
      = updRowFn now p i from rfl, findRow_map_updRowFn, hr]
    rfl
  simp only [updateProject, hv, hr, hu, not_true, if_false, updRowFn]
  rw [happ, hfind]
  rfl

/-- Claim C3: a PUT that supplies only end_date is accepted with HTTP 200
even when the new end_date precedes the stored start_date, leaving the
stored record with end_date before start_date. -/
theorem update_end_date_alone_unchecked (now : Nat) (db : DB) (i : Nat)
    (r : Row) (s e : Nat) (hr : findRow db.rows i = some r)
    (hs : r.start_date = some s) (he : e < s) :
    ∃ r' db',
      handle now db
          (.updateProject i { emptyUpdate with end_date := .setVal e }) =
        (db', .okProject r') ∧
      r'.start_date = some s ∧ r'.end_date = some e ∧ e < s ∧
      findRow db'.rows i = some r' := by
  have hid : r.id = i := by simpa using List.find?_some hr
  have h := updateProject_success now db i
    { emptyUpdate with end_date := .setVal e } r rfl hr rfl
    (by simp [emptyUpdate]) (by simp [emptyUpdate])
  refine ⟨updRowFn now { emptyUpdate with end_date := .setVal e } i r,
    ⟨db.rows.map (updRowFn now { emptyUpdate with end_date := .setVal e } i)⟩,
    h, ?_, ?_, he, ?_⟩
  · simp only [updRowFn, if_pos hid]
    exact hs
  · simp only [updRowFn, if_pos hid]
    rfl
  · rw [findRow_map_updRowFn, hr]
    rfl

theorem update_end_date_alone_unchecked_witness :
    findRow [sampleRow] 1 = some sampleRow ∧
    sampleRow.start_date = some 100 ∧ 50 < 100 ∧
    ∃ r' db',
      handle 9 ⟨[sampleRow]⟩
          (.updateProject 1 { emptyUpdate with end_date := .setVal 50 }) =
        (db', .okProject r') ∧
      r'.start_date = some 100 ∧ r'.end_date = some 50 ∧ 50 < 100 ∧
      findRow db'.rows 1 = some r' :=
  ⟨by decide, by decide, by decide,
    update_end_date_alone_unchecked 9 ⟨[sampleRow]⟩ 1 sampleRow 100 50
      (by decide) (by decide) (by decide)⟩

theorem newRowOf_id (now : Nat) (p : CreatePayload) (newId : Nat) :
    (newRowOf now p newId).id = newId := rfl

/-- The successful branch of create_project: the re-read after the INSERT
always finds the freshly assigned id, so the 500 fallback is dead code. -/
theorem createProject_ok (now : Nat) (db : DB) (p : CreatePayload)
    (hv : validateCreate p = []) :
    createProject now db p =
      (⟨db.rows ++ [newRowOf now p (maxId db.rows + 1)]⟩,
       .createdProject (newRowOf now p (maxId db.rows + 1))) := by
  have hfresh : ∀ r ∈ db.rows, r.id ≠ maxId db.rows + 1 := by
    intro r hrr
    have := maxId_ge db.rows r hrr
    omega
  have hfind := findRow_append_fresh db.rows
    (newRowOf now p (maxId db.rows + 1)) (maxId db.rows + 1) hfresh rfl
  simp only [createProject, hv, hfind]

/-- Claim C6: a create payload carrying both dates with end_date before
start_date yields HTTP 422 naming end_date among the failing fields,
whatever the other fields contain, and no row is inserted. -/
theorem create_bad_dates_422 (now : Nat) (db : DB) (p : CreatePayload)
    (s e : Nat) (hs : p.start_date = some s) (he : p.end_date = some e)
    (hlt : e < s) :
    ∃ fs, handle now db (.create p) = (db, .validationErr fs) ∧
      chars "end_date" ∈ fs ∧ Response.status (.validationErr fs) = 422 := by
  have hmem : chars "end_date" ∈ validateCreate p := by
    unfold validateCreate
    simp only [he, hs, if_pos hlt]
    simp
  refine ⟨validateCreate p, ?_, hmem, rfl⟩
  cases hv : validateCreate p with
  | nil => rw [hv] at hmem; cases hmem
  | cons a l => simp only [handle, createProject, hv]

/-- A create payload with required fields filled and inverted dates. -/
def badDatesPayload : CreatePayload :=
  { project_name := some (chars "P")
    description := some (chars "D")
    industry := none
    start_date := some 100
    end_date := some 50
    tools_used := none
    role := none
    client_organization := none
    client_description := none }

theorem create_bad_dates_422_witness :
    badDatesPayload.start_date = some 100 ∧
    badDatesPayload.end_date = some 50 ∧ 50 < 100 ∧
    ∃ fs, handle 0 ⟨[]⟩ (.create badDatesPayload) = (⟨[]⟩, .validationErr fs) ∧
      chars "end_date" ∈ fs ∧ Response.status (.validationErr fs) = 422 :=
  ⟨rfl, rfl, by decide,
    create_bad_dates_422 0 ⟨[]⟩ badDatesPayload 100 50 rfl rfl (by decide)⟩

theorem applyUpdate_none (now : Nat) (p : UpdatePayload) (r : Row)
    (h : p.project_name = .setNull ∨ p.description = .setNull) :
    applyUpdate now p r = none := by
  rcases h with h | h <;>
    cases hp : p.project_name <;> cases hq : p.description <;>
      simp_all [applyUpdate]

theorem listProjects_fst (db : DB) (q : ListQuery) :
    (listProjects db q).1 = db := by
  simp only [listProjects]
  split
  · rfl
  · split <;> rfl

/-- Claim C5: error atomicity: whenever a request is answered with status
400, 404, 422 or 500, the stored state after the request equals the
stored state before it. -/
theorem error_leaves_state_unchanged (now : Nat) (db : DB) (req : Request)
    (h : (handle now db req).2.status = 400 ∨
         (handle now db req).2.status = 404 ∨
         (handle now db req).2.status = 422 ∨
         (handle now db req).2.status = 500) :
    (handle now db req).1 = db := by
  cases req with
  | create p =>
    cases hv : validateCreate p with
    | nil =>
      exfalso
      have hc := createProject_ok now db p hv
      simp only [handle] at h
      rw [hc] at h
      simp [Response.status] at h
    | cons a l => simp [handle, createProject, hv]
  | listProjects q =>
    simp only [handle]
    exact listProjects_fst db q
  | getProject i =>
    cases hf : findRow db.rows i <;> simp [handle, getProject, hf]
  | updateProject i p =>
    cases hv : validateUpdate p with
    | cons a l => simp [handle, updateProject, hv]
    | nil =>
      cases hf : findRow db.rows i with
      | none => simp [handle, updateProject, hv, hf]
      | some ex =>
        by_cases hu : hasUpdates p = true
        · by_cases hnull : p.project_name = .setNull ∨ p.description = .setNull
          · have hap := applyUpdate_none now p ex hnull
            simp [handle, updateProject, hv, hf, hu, hap]
          · push_neg at hnull
            exfalso
            have hs := updateProject_success now db i p ex hv hf hu
              hnull.1 hnull.2
            simp only [handle] at h
            rw [hs] at h
            simp [Response.status] at h
        · have hu2 : hasUpdates p = false := by
            cases hb : hasUpdates p
            · rfl
            · exact absurd hb hu
          simp [handle, updateProject, hv, hf, hu2]
  | deleteProject i =>
    cases hf : findRow db.rows i with
    | none => simp [handle, deleteProject, hf]
    | some ex =>
      exfalso
      simp [handle, deleteProject, hf, Response.status] at h
  | filterOptions => rfl

theorem error_leaves_state_unchanged_witness :
    (handle 0 ⟨[]⟩ (.getProject 5)).2.status = 404 ∧
    (handle 0 ⟨[]⟩ (.getProject 5)).1 = ⟨[]⟩ :=
  ⟨by decide, error_leaves_state_unchanged 0 ⟨[]⟩ (.getProject 5)
    (Or.inr (Or.inl (by decide)))⟩

theorem applyUpdate_getD_eq (now : Nat) (p : UpdatePayload) (r : Row)
    (hpn : p.project_name ≠ .setNull) (hd : p.description ≠ .setNull) :
    (applyUpdate now p r).getD r =
      { r with
        project_name := match p.project_name with
          | .setVal v => v
          | _ => r.project_name
        description := match p.description with
          | .setVal v => v
          | _ => r.description
        industry := updOpt p.industry r.industry
        start_date := updOpt p.start_date r.start_date
        end_date := updOpt p.end_date r.end_date
        tools_used := updOpt p.tools_used r.tools_used
        role := updOpt p.role r.role
        client_organization := updOpt p.client_organization r.client_organization
        client_description := updOpt p.client_description r.client_description
        updated_at := now } := by
  cases hp : p.project_name <;> cases hq : p.description <;>
    simp_all [applyUpdate]

/-- The frame contract of one applied update: supplied fields take their
payload values, unsupplied fields keep their stored values, id and
created_at never change, and updated_at becomes the request timestamp. -/
def frameOk (now : Nat) (p : UpdatePayload) (r r' : Row) : Prop :=
  r'.id = r.id ∧ r'.created_at = r.created_at ∧ r'.updated_at = now ∧
  r.updated_at < r'.updated_at ∧
  (p.project_name = .unset → r'.project_name = r.project_name) ∧
  (∀ v, p.project_name = .setVal v → r'.project_name = v) ∧
  (p.description = .unset → r'.description = r.description) ∧
  (∀ v, p.description = .setVal v → r'.description = v) ∧
  (p.industry = .unset → r'.industry = r.industry) ∧
  (p.industry = .setNull → r'.industry = none) ∧
  (∀ v, p.industry = .setVal v → r'.industry = some v) ∧
  (p.start_date = .unset → r'.start_date = r.start_date) ∧
  (p.start_date = .setNull → r'.start_date = none) ∧
  (∀ v, p.start_date = .setVal v → r'.start_date = some v) ∧
  (p.end_date = .unset → r'.end_date = r.end_date) ∧
  (p.end_date = .setNull → r'.end_date = none) ∧
  (∀ v, p.end_date = .setVal v → r'.end_date = some v) ∧
  (p.tools_used = .unset → r'.tools_used = r.tools_used) ∧
  (p.tools_used = .setNull → r'.tools_used = none) ∧
  (∀ v, p.tools_used = .setVal v → r'.tools_used = some v) ∧
  (p.role = .unset → r'.role = r.role) ∧
  (p.role = .setNull → r'.role = none) ∧
  (∀ v, p.role = .setVal v → r'.role = some v) ∧
  (p.client_organization = .unset →
    r'.client_organization = r.client_organization) ∧
  (p.client_organization = .setNull → r'.client_organization = none) ∧
  (∀ v, p.client_organization = .setVal v →
    r'.client_organization = some v) ∧
  (p.client_description = .unset →
    r'.client_description = r.client_description) ∧
  (p.client_description = .setNull → r'.client_description = none) ∧
  (∀ v, p.client_description = .setVal v → r'.client_description = some v)

/-- Claim C4: a successful partial update supplying a non-empty field set
changes exactly the supplied fields, leaves every other field and id and
created_at at their pre-update values, and strictly increases updated_at
(the refresh is the spec-modelled updated_at trigger). -/
theorem update_frame_and_updated_at (now : Nat) (db : DB) (i : Nat)
    (p : UpdatePayload) (r r' : Row) (db' : DB)
    (hr : findRow db.rows i = some r) (hu : hasUpdates p = true)
    (hnow : r.updated_at < now)
    (hres : handle now db (.updateProject i p) = (db', .okProject r')) :
    frameOk now p r r' := by
  cases hv : validateUpdate p with
  | cons a l => simp [handle, updateProject, hv] at hres
  | nil =>
    by_cases hnull : p.project_name = .setNull ∨ p.description = .setNull
    · have hap := applyUpdate_none now p r hnull
      simp [handle, updateProject, hv, hr, hu, hap] at hres
    · push_neg at hnull
      have hs := updateProject_success now db i p r hv hr hu hnull.1 hnull.2
      simp only [handle] at hres
      rw [hs] at hres
      have h2 := congrArg Prod.snd hres
      simp only [Response.okProject.injEq] at h2
      subst h2
      have hid : r.id = i := by simpa using List.find?_some hr
      have hkey : updRowFn now p i r =
          { r with
            project_name := match p.project_name with
              | .setVal v => v
              | _ => r.project_name
            description := match p.description with
              | .setVal v => v
              | _ => r.description
            industry := updOpt p.industry r.industry
            start_date := updOpt p.start_date r.start_date
            end_date := updOpt p.end_date r.end_date
            tools_used := updOpt p.tools_used r.tools_used
            role := updOpt p.role r.role
            client_organization :=
              updOpt p.client_organization r.client_organization
            client_description :=
              updOpt p.client_description r.client_description
            updated_at := now } := by
        simp only [updRowFn, if_pos hid]
        exact applyUpdate_getD_eq now p r hnull.1 hnull.2
      rw [hkey]
      unfold frameOk
      refine ⟨rfl, rfl, rfl, hnow, ?_, ?_, ?_, ?_, ?_, ?_, ?_, ?_, ?_, ?_,
        ?_, ?_, ?_, ?_, ?_, ?_, ?_, ?_, ?_, ?_, ?_, ?_, ?_, ?_, ?_⟩ <;>
        · intros
          simp_all [updOpt]

/-- The stored row of the witness after its industry-only update. -/
def updatedSample : Row :=
  { sampleRow with industry := some (chars "Tech"), updated_at := 9 }

theorem update_frame_and_updated_at_witness :
    findRow [sampleRow] 1 = some sampleRow ∧
    hasUpdates { emptyUpdate with industry := .setVal (chars "Tech") } = true ∧
    sampleRow.updated_at < 9 ∧
    handle 9 ⟨[sampleRow]⟩
        (.updateProject 1 { emptyUpdate with industry := .setVal (chars "Tech") }) =
      (⟨[updatedSample]⟩, .okProject updatedSample) ∧
    frameOk 9 { emptyUpdate with industry := .setVal (chars "Tech") }
      sampleRow updatedSample :=
  ⟨by decide, by decide, by decide, by decide,
    update_frame_and_updated_at 9 ⟨[sampleRow]⟩ 1
      { emptyUpdate with industry := .setVal (chars "Tech") }
      sampleRow updatedSample ⟨[updatedSample]⟩
      (by decide) (by decide) (by decide) (by decide)⟩

theorem strLt_irrefl (a : Str) : strLt a a = false := by
  induction a with
  | nil => rfl
  | cons c cs ih => simp [strLt, ih]

theorem strLt_total (a : Str) : ∀ b : Str, a ≠ b →
    strLt a b = true ∨ strLt b a = true := by
  induction a with
  | nil =>
    intro b hne
    cases b with
    | nil => exact absurd rfl hne
    | cons bh bt => exact Or.inl rfl
  | cons ah ta ih =>
    intro b hne
    cases b with
    | nil => exact Or.inr rfl
    | cons bh bt =>
      by_cases hlt : ah < bh
      · exact Or.inl (by simp [strLt, hlt])
      · by_cases hgt : bh < ah
        · exact Or.inr (by simp [strLt, hgt])
        · have heq : ah = bh := le_antisymm (not_lt.mp hgt) (not_lt.mp hlt)
          subst heq
          have hts : ta ≠ bt := by
            intro hts; exact hne (by rw [hts])
          rcases ih bt hts with h | h
          · exact Or.inl (by simp [strLt, h])
          · exact Or.inr (by simp [strLt, h])

theorem strLt_trans (a : Str) : ∀ b c : Str,
    strLt a b = true → strLt b c = true → strLt a c = true := by
  induction a with
  | nil =>
    intro b c hab hbc
    cases b with
    | nil => simp [strLt] at hab
    | cons bh bt =>
      cases c with
      | nil => simp [strLt] at hbc
      | cons ch ct => rfl
  | cons ah ta ih =>
    intro b c hab hbc
    cases b with
    | nil => simp [strLt] at hab
    | cons bh bt =>
      cases c with
      | nil => simp [strLt] at hbc
      | cons ch ct =>
        simp only [strLt, Bool.or_eq_true, Bool.and_eq_true,
          decide_eq_true_eq] at *
        rcases hab with h1 | ⟨he1, h1⟩ <;> rcases hbc with h2 | ⟨he2, h2⟩
        · exact Or.inl (lt_trans h1 h2)
        · subst he2; exact Or.inl h1
        · subst he1; exact Or.inl h2
        · subst he1; subst he2; exact Or.inr ⟨rfl, ih bt ct h1 h2⟩

theorem mem_insertStr (x z : Str) (l : List Str) :
    z ∈ insertStr x l ↔ z = x ∨ z ∈ l := by
  induction l with
  | nil => simp [insertStr]
  | cons y ys ih =>
    by_cases h1 : strLt x y
    · simp [insertStr, h1]
    · by_cases h2 : x = y
      · subst h2
        simp [insertStr, h1, strLt_irrefl]
      · simp [insertStr, h1, h2, ih]
        tauto

theorem pairwise_insertStr (x : Str) (l : List Str)
    (h : l.Pairwise (fun a b => strLt a b = true)) :
    (insertStr x l).Pairwise (fun a b => strLt a b = true) := by
  induction l with
  | nil => simp [insertStr]
  | cons y ys ih =>
    rcases List.pairwise_cons.mp h with ⟨hy, hys⟩
    by_cases h1 : strLt x y
    · rw [insertStr, if_pos h1]
      refine List.pairwise_cons.mpr ⟨?_, h⟩
      intro z hz
      rcases List.mem_cons.mp hz with hz | hz
      · subst hz; exact h1
      · exact strLt_trans x y z h1 (hy z hz)
    · by_cases h2 : x = y
      · subst h2
        rw [insertStr, if_neg h1, if_pos rfl]
        exact h
      · have hyx : strLt y x = true := by
          rcases strLt_total x y h2 with h | h
          · exact absurd h h1
          · exact h
        simp only [insertStr, if_neg h1, if_neg h2]
        refine List.pairwise_cons.mpr ⟨?_, ih hys⟩
        intro z hz
        rcases (mem_insertStr x z ys).mp hz with hz | hz
        · subst hz; exact hyx
        · exact hy z hz

theorem mem_distinctSorted (z : Str) (l : List Str) :
    z ∈ distinctSorted l ↔ z ∈ l := by
  induction l with
  | nil => simp [distinctSorted]
  | cons y ys ih =>
    simp only [distinctSorted, List.foldr_cons] at *
    rw [mem_insertStr, ih]
    simp

theorem pairwise_distinctSorted (l : List Str) :
    (distinctSorted l).Pairwise (fun a b => strLt a b = true) := by
  induction l with
  | nil => simp [distinctSorted]
  | cons y ys ih =>
    simp only [distinctSorted, List.foldr_cons] at *
    exact pairwise_insertStr y _ ih

theorem nodup_of_pairwise_strLt (l : List Str)
    (h : l.Pairwise (fun a b => strLt a b = true)) : l.Nodup := by
  refine List.Pairwise.imp ?_ h
  intro a b hab heq
  subst heq
  rw [strLt_irrefl] at hab
  cases hab

theorem mem_foldr_append (f : Str → List Str) (l : List Str) (x : Str) :
    x ∈ l.foldr (fun t acc => f t ++ acc) [] ↔ ∃ t ∈ l, x ∈ f t := by
  induction l with
  | nil => simp
  | cons y ys ih => simp [ih]

/-- Claim C7: the filter-options endpoint returns the distinct non-empty
industry and client_organization values in strict alphabetical order, and
the tools list holding exactly the non-empty trimmed comma-tokens of the
stored tools_used values, each once, in strict alphabetical order. -/
theorem filter_options_characterization (now : Nat) (db : DB) :
    ∃ inds cls tls,
      handle now db .filterOptions = (db, .okOptions inds cls tls) ∧
      (∀ x, x ∈ inds ↔ x ≠ [] ∧ ∃ r ∈ db.rows, r.industry = some x) ∧
      inds.Pairwise (fun a b => strLt a b = true) ∧ inds.Nodup ∧
      (∀ x, x ∈ cls ↔ x ≠ [] ∧
        ∃ r ∈ db.rows, r.client_organization = some x) ∧
      cls.Pairwise (fun a b => strLt a b = true) ∧ cls.Nodup ∧
      (∀ x, x ∈ tls ↔ x ≠ [] ∧ ∃ r ∈ db.rows, ∃ t, r.tools_used = some t ∧
        t ≠ [] ∧ x ∈ (splitComma t).map pyStrip) ∧
      tls.Pairwise (fun a b => strLt a b = true) ∧ tls.Nodup := by
  refine ⟨industriesOf db.rows, clientsOf db.rows, toolsOf db.rows,
    rfl, ?_, ?_, ?_, ?_, ?_, ?_, ?_, ?_, ?_⟩
  · intro x
    rw [industriesOf, mem_distinctSorted, List.mem_filter, List.mem_filterMap]
    simp [and_comm]
  · exact pairwise_distinctSorted _
  · exact nodup_of_pairwise_strLt _ (pairwise_distinctSorted _)
  · intro x
    rw [clientsOf, mem_distinctSorted, List.mem_filter, List.mem_filterMap]
    simp [and_comm]
  · exact pairwise_distinctSorted _
  · exact nodup_of_pairwise_strLt _ (pairwise_distinctSorted _)
  · intro x
    rw [toolsOf, mem_distinctSorted, mem_foldr_append]
    constructor
    · rintro ⟨t, ht, hx⟩
      rw [List.mem_dedup, List.mem_filter, List.mem_filterMap] at ht
      obtain ⟨⟨r, hr, hrt⟩, hne⟩ := ht
      rw [tokensOf, List.mem_filter] at hx
      obtain ⟨hxm, hxe⟩ := hx
      refine ⟨by simpa using hxe, r, hr, t, hrt, by simpa using hne, hxm⟩
    · rintro ⟨hxe, r, hr, t, hrt, htne, hxm⟩
      refine ⟨t, ?_, ?_⟩
      · rw [List.mem_dedup, List.mem_filter, List.mem_filterMap]
        exact ⟨⟨r, hr, hrt⟩, by simpa using htne⟩
      · rw [tokensOf, List.mem_filter]
        exact ⟨hxm, by simpa using hxe⟩
  · exact pairwise_distinctSorted _
  · exact nodup_of_pairwise_strLt _ (pairwise_distinctSorted _)

theorem nil_mem_suffixes (s : Str) : [] ∈ suffixes s := by
  induction s with
  | nil => simp [suffixes]
  | cons c s ih => simp [suffixes, ih]

theorem likeMatch_pct_only (t : Str) : likeMatch ['%'] t = true := by
  simp only [likeMatch]
  rw [List.any_eq_true]
  exact ⟨[], nil_mem_suffixes t, rfl⟩

theorem suffixes_lower (t : Str) :
    suffixes (lowerStr t) = (suffixes t).map lowerStr := by
  unfold lowerStr
  induction t with
  | nil => rfl
  | cons c s ih => simp [suffixes, ih]

theorem substrOf_eq_any (y s : Str) :
    substrOf y s = (suffixes s).any (fun s2 => startsWith y s2) := by
  induction s with
  | nil => cases y <;> rfl
  | cons c rest ih => simp [substrOf, suffixes, ih]

theorem likeMatch_lit_pct (x : Str) (hw : ∀ c ∈ x, c ≠ '%' ∧ c ≠ '_') :
    ∀ t : Str, likeMatch (x ++ ['%']) t
      = startsWith (lowerStr x) (lowerStr t) := by
  induction x with
  | nil =>
    intro t
    rw [List.nil_append, likeMatch_pct_only]
    rfl
  | cons c x' ih =>
    intro t
    have hc := hw c (List.mem_cons_self c x')
    cases t with
    | nil =>
      have h0 : likeMatch (c :: (x' ++ ['%'])) [] = false := by
        simp [likeMatch, hc.1, hc.2]
      rw [List.cons_append, h0]
      rfl
    | cons d t' =>
      have h0 : likeMatch (c :: (x' ++ ['%'])) (d :: t')
          = (lowerChar c = lowerChar d && likeMatch (x' ++ ['%']) t') := by
        simp [likeMatch, hc.1, hc.2]
      rw [List.cons_append, h0,
        ih (fun a ha => hw a (List.mem_cons_of_mem c ha)) t']
      rfl

/-- The LIKE pattern percent-x-percent built by the tools filter matches a
stored value exactly when x, taken without wildcard characters, occurs in
it as an ASCII-case-insensitive substring. -/
theorem likeMatch_tools_pattern (x : Str)
    (hw : ∀ c ∈ x, c ≠ '%' ∧ c ≠ '_') (t : Str) :
    likeMatch ('%' :: x ++ ['%']) t = substrOf (lowerStr x) (lowerStr t) := by
  have h1 : likeMatch ('%' :: (x ++ ['%'])) t
      = (suffixes t).any (fun s2 => likeMatch (x ++ ['%']) s2) := by
    simp [likeMatch]
  have h2 : (fun s2 => likeMatch (x ++ ['%']) s2)
      = (fun s2 => startsWith (lowerStr x) (lowerStr s2)) :=
    funext (fun s2 => likeMatch_lit_pct x hw s2)
  rw [List.cons_append, h1, h2, substrOf_eq_any, suffixes_lower,
    List.any_map]
  rfl

theorem rowMatches_tools_only (x : Str) (r : Row) (hx : x ≠ []) :
    rowMatches { noQuery with tools := some x } r = true ↔
      ∃ t, r.tools_used = some t ∧
        likeMatch ('%' :: x ++ ['%']) t = true := by
  have hxe : x.isEmpty = false := by
    cases x with
    | nil => exact absurd rfl hx
    | cons a b => rfl
  cases ht : r.tools_used with
  | none => simp [rowMatches, noQuery, hxe, ht]
  | some t => simp [rowMatches, noQuery, hxe, ht]

/-- A stored row whose tools_used differs from the query text only in
ASCII letter case. -/
def caseRow : Row :=
  { id := 1
    project_name := chars "P"
    description := chars "D"
    industry := none
    start_date := none
    end_date := none
    tools_used := some (chars "PYTHON")
    role := none
    client_organization := none
    client_description := none
    created_at := 0
    updated_at := 0 }

/-- Claim C2 fails on the code: with one stored record whose tools_used is
PYTHON, the filter tools=python returns that record even though python is
not a case-sensitive substring of PYTHON, because SQLite LIKE compares
ASCII letters case-insensitively; so the returned set is not the set the
claim describes. -/
theorem tools_filter_case_counterexample :
    caseRow.tools_used = some (chars "PYTHON") ∧
    substrOf (chars "python") (chars "PYTHON") = false ∧
    (handle 0 ⟨[caseRow]⟩
        (.listProjects { noQuery with tools := some (chars "python") })).2 =
      .okList [caseRow] := by decide

/-- Claim C2 as amended: for a non-empty filter text x free of the LIKE
wildcard characters percent and underscore, GET /api/projects with
tools=x returns exactly the records whose tools_used contains x as an
ASCII-case-insensitive substring. -/
theorem tools_filter_insensitive_substring (now : Nat) (db : DB) (x : Str)
    (hx : x ≠ []) (hw : ∀ c ∈ x, c ≠ '%' ∧ c ≠ '_') :
    ∃ rs, handle now db (.listProjects { noQuery with tools := some x }) =
        (db, .okList rs) ∧
      ∀ r, r ∈ rs ↔ r ∈ db.rows ∧ ∃ t, r.tools_used = some t ∧
        substrOf (lowerStr x) (lowerStr t) = true := by
  refine ⟨_, rfl, ?_⟩
  intro r
  rw [mem_sortBy, List.mem_filter]
  constructor
  · rintro ⟨hr, hm⟩
    obtain ⟨t, ht, hlm⟩ := (rowMatches_tools_only x r hx).mp hm
    refine ⟨hr, t, ht, ?_⟩
    rw [← likeMatch_tools_pattern x hw t]
    exact hlm
  · rintro ⟨hr, t, ht, hsub⟩
    refine ⟨hr, (rowMatches_tools_only x r hx).mpr ⟨t, ht, ?_⟩⟩
    rw [likeMatch_tools_pattern x hw t]
    exact hsub

theorem tools_filter_insensitive_substring_witness :
    chars "django" ≠ [] ∧ (∀ c ∈ chars "django", c ≠ '%' ∧ c ≠ '_') ∧
    ∃ rs, handle 0 ⟨[sampleRow]⟩
        (.listProjects { noQuery with tools := some (chars "django") }) =
      (⟨[sampleRow]⟩, .okList rs) ∧
      ∀ r, r ∈ rs ↔ r ∈ [sampleRow] ∧ ∃ t, r.tools_used = some t ∧
        substrOf (lowerStr (chars "django")) (lowerStr t) = true :=
  ⟨by decide, by decide,
    tools_filter_insensitive_substring 0 ⟨[sampleRow]⟩ (chars "django")
      (by decide) (by decide)⟩
